import Mathlib

/-!
Shallow embedding of the expense-tracker script (src/app.py).

The backing store is a Google Sheet; we model the `Expenses` worksheet as the
list of its data rows (sheet row 1 is the fixed header
`Date, Amount, Category, Description`, so the data row with list index `i`
sits at sheet position `i + 2`).  Cell contents are modelled as the values the
script writes: the date as the character string produced by
`date.strftime(%Y-%m-%d)`, the amount as a number (`Rat` stands in for the
Python float), category and description as strings.

Pandas/gspread library calls are modelled by their documented behaviour on the
inputs this script produces: `pd.to_datetime` on a `YYYY-MM-DD` string,
`pd.to_numeric` on a numeric cell (identity here), `Series.mean` (`NaN`,
modelled as `none`, on an empty series), `groupby(...).sum()`,
`Series.unique`, `worksheet.append_row`, `worksheet.update` of one row,
`worksheet.delete_rows` (later rows shift up by one).
-/

namespace ExpenseApp

/-- A calendar date as handled by `st.date_input` / `datetime.date`. -/
structure Date where
  year : Nat
  month : Nat
  day : Nat
deriving DecidableEq, Repr

/-- Dates the app can store and re-load: four-digit year (so `strftime(%Y)`
prints exactly four digits) and month/day in calendar range.  Every date a
user can pick in the form satisfies this. -/
def ValidDate (d : Date) : Prop :=
  1000 ≤ d.year ∧ d.year ≤ 9999 ∧ 1 ≤ d.month ∧ d.month ≤ 12 ∧ 1 ≤ d.day ∧ d.day ≤ 31

instance (d : Date) : Decidable (ValidDate d) := by
  unfold ValidDate; infer_instance

/-- The character for the decimal digit `n % 10`. -/
def digitChar (n : Nat) : Char := Char.ofNat (48 + n % 10)

/-- Numeric value of a digit character. -/
def digitVal (c : Char) : Nat := c.toNat - 48

/-- Two-digit zero-padded rendering, as `strftime(%m)` / `strftime(%d)`. -/
def pad2 (n : Nat) : List Char := [digitChar (n / 10), digitChar n]

/-- Four-digit rendering, as `strftime(%Y)` on four-digit years. -/
def pad4 (n : Nat) : List Char :=
  [digitChar (n / 1000), digitChar (n / 100), digitChar (n / 10), digitChar n]

/-- `date.strftime(%Y-%m-%d)` from `add_expense` / `update_expense`. -/
def formatDate (d : Date) : List Char :=
  pad4 d.year ++ '-' :: pad2 d.month ++ '-' :: pad2 d.day

/-- Model of `pd.to_datetime` on one cell of the `Date` column, restricted to
the `YYYY-MM-DD` layout the app itself writes; any other content makes the
load fail (the script catches the exception and returns an empty frame). -/
def parseDate : List Char → Option Date
  | [y1, y2, y3, y4, s1, m1, m2, s2, d1, d2] =>
    if y1.isDigit && y2.isDigit && y3.isDigit && y4.isDigit && s1 == '-' &&
        m1.isDigit && m2.isDigit && s2 == '-' && d1.isDigit && d2.isDigit then
      let y := ((digitVal y1 * 10 + digitVal y2) * 10 + digitVal y3) * 10 + digitVal y4
      let m := digitVal m1 * 10 + digitVal m2
      let dd := digitVal d1 * 10 + digitVal d2
      if 1 ≤ m ∧ m ≤ 12 ∧ 1 ≤ dd ∧ dd ≤ 31 then some ⟨y, m, dd⟩ else none
    else none
  | _ => none

theorem digitChar_isDigit (n : Nat) : (digitChar n).isDigit = true := by
  have h : n % 10 < 10 := Nat.mod_lt _ (by norm_num)
  have haux : ∀ k, k < 10 → (Char.ofNat (48 + k)).isDigit = true := by decide
  exact haux (n % 10) h

theorem digitVal_digitChar (n : Nat) : digitVal (digitChar n) = n % 10 := by
  have h : n % 10 < 10 := Nat.mod_lt _ (by norm_num)
  have haux : ∀ k, k < 10 → digitVal (Char.ofNat (48 + k)) = k := by decide
  exact haux (n % 10) h

/-- Loading parses back exactly the date that `add_expense` serialized. -/
theorem parseDate_formatDate (d : Date) (h : ValidDate d) :
    parseDate (formatDate d) = some d := by
  obtain ⟨y, m, dd⟩ := d
  obtain ⟨hy1, hy2, hm1, hm2, hd1, hd2⟩ := h
  have hy1' : 1000 ≤ y := hy1
  have hy2' : y ≤ 9999 := hy2
  have hm1' : 1 ≤ m := hm1
  have hm2' : m ≤ 12 := hm2
  have hd1' : 1 ≤ dd := hd1
  have hd2' : dd ≤ 31 := hd2
  simp only [formatDate, pad4, pad2, List.cons_append, List.nil_append, parseDate,
    digitChar_isDigit, digitVal_digitChar, Bool.and_self, Bool.and_true, Bool.true_and,
    beq_self_eq_true, if_true]
  have e1 : ((y / 1000 % 10 * 10 + y / 100 % 10) * 10 + y / 10 % 10) * 10 + y % 10 = y := by
    omega
  have e2 : m / 10 % 10 * 10 + m % 10 = m := by omega
  have e3 : dd / 10 % 10 * 10 + dd % 10 = dd := by omega
  rw [e1, e2, e3]
  rw [if_pos ⟨hm1', hm2', hd1', hd2'⟩]

/-- One data row of the `Expenses` worksheet, holding the cell values the
script writes: serialized date, numeric amount, category, description. -/
structure Row where
  dateStr : List Char
  amount : Rat
  category : String
  description : String
deriving DecidableEq

/-- One record of the loaded dataframe: parsed fields plus the `RowNum`
column that `load_expenses` attaches (sheet position, used as identity for
update/delete). -/
structure Expense where
  date : Date
  amount : Rat
  category : String
  description : String
  row_num : Nat
deriving DecidableEq

/-- The row `add_expense` / `update_expense` writes:
`[date.strftime(%Y-%m-%d), float(amount), category, description]`. -/
def mkRow (date : Date) (amount : Rat) (category description : String) : Row :=
  ⟨formatDate date, amount, category, description⟩

/-- `add_expense`: `worksheet.append_row(row)`. -/
def add_expense (rows : List Row) (date : Date) (amount : Rat)
    (category description : String) : List Row :=
  rows ++ [mkRow date amount category description]

/-- `update_expense`: overwrite of cells `A{row_num}:D{row_num}`; the data row
with sheet position `row_num` sits at list index `row_num - 2`. -/
def update_expense (rows : List Row) (row_num : Nat) (date : Date) (amount : Rat)
    (category description : String) : List Row :=
  rows.set (row_num - 2) (mkRow date amount category description)

/-- `delete_expense`: `worksheet.delete_rows(row_num)`; every later row shifts
up by one sheet position. -/
def delete_expense (rows : List Row) (row_num : Nat) : List Row :=
  rows.eraseIdx (row_num - 2)

/-- Parsing of one data row into a dataframe record carrying sheet position
`pos` (the `pd.to_datetime` / `pd.to_numeric` step of `load_expenses`;
`to_numeric` is the identity on the numeric cell the app wrote). -/
def parseRow (r : Row) (pos : Nat) : Option Expense :=
  (parseDate r.dateStr).map fun d => ⟨d, r.amount, r.category, r.description, pos⟩

/-- Column-wise parsing of all data rows, assigning sheet positions from `pos`
on; any parse failure fails the whole load (the single try/except of the script
around the dataframe construction). -/
def loadAux : List Row → Nat → Option (List Expense)
  | [], _ => some []
  | r :: rs, pos => (parseRow r pos).bind fun e => (loadAux rs (pos + 1)).map fun es => e :: es

/-- `load_expenses`: positions start at 2 (`range(2, len(df) + 2)`, row 1 is
the header); on any error the except-branch returns an empty frame. -/
def load_expenses (rows : List Row) : List Expense :=
  (loadAux rows 2).getD []

/-- A worksheet state whose `Date` cells all parse — true of every state the
app itself writes. -/
def RowsWF (rows : List Row) : Prop :=
  ∀ r ∈ rows, (parseDate r.dateStr).isSome = true

instance (rows : List Row) : Decidable (RowsWF rows) := by
  unfold RowsWF; infer_instance

theorem parseRow_mkRow (d : Date) (a : Rat) (c ds : String) (pos : Nat) (h : ValidDate d) :
    parseRow (mkRow d a c ds) pos = some ⟨d, a, c, ds, pos⟩ := by
  simp [parseRow, mkRow, parseDate_formatDate d h]

/-- Re-numbering that shifts a record one sheet position down. -/
def bump (e : Expense) : Expense := { e with row_num := e.row_num + 1 }

theorem parseRow_succ (r : Row) (n : Nat) :
    parseRow r (n + 1) = (parseRow r n).map bump := by
  cases h : parseDate r.dateStr <;> simp [parseRow, h, bump]

theorem loadAux_shift (xs : List Row) (n : Nat) :
    loadAux xs (n + 1) = (loadAux xs n).map (List.map bump) := by
  induction xs generalizing n with
  | nil => simp [loadAux]
  | cons r rs ih =>
    simp only [loadAux, parseRow_succ, ih]
    cases parseRow r n <;> cases loadAux rs n <;> simp [bump]

theorem loadAux_append (xs ys : List Row) (n : Nat) :
    loadAux (xs ++ ys) n =
      (loadAux xs n).bind fun a => (loadAux ys (n + xs.length)).map fun b => a ++ b := by
  induction xs generalizing n with
  | nil =>
    simp only [List.nil_append, List.length_nil, Nat.add_zero, loadAux, Option.some_bind]
    cases loadAux ys n <;> simp
  | cons r rs ih =>
    simp only [List.cons_append, loadAux, List.append_eq, ih, List.length_cons]
    have e : n + 1 + rs.length = n + (rs.length + 1) := by omega
    rw [e]
    cases parseRow r n <;> cases loadAux rs (n + 1) <;>
      cases loadAux ys (n + (rs.length + 1)) <;> simp

theorem loadAux_length (xs : List Row) (n : Nat) (l : List Expense)
    (h : loadAux xs n = some l) : l.length = xs.length := by
  induction xs generalizing n l with
  | nil => simp only [loadAux, Option.some_inj] at h; subst h; rfl
  | cons r rs ih =>
    simp only [loadAux] at h
    cases hp : parseRow r n with
    | none => rw [hp] at h; simp at h
    | some e =>
      rw [hp] at h
      cases hl : loadAux rs (n + 1) with
      | none => rw [hl] at h; simp at h
      | some es =>
        rw [hl] at h
        obtain rfl : e :: es = l := by simpa using h
        simp [ih (n + 1) es hl]

theorem parseRow_rowNum (r : Row) (n : Nat) (e : Expense) (h : parseRow r n = some e) :
    e.row_num = n := by
  cases hd : parseDate r.dateStr with
  | none => rw [parseRow, hd] at h; simp at h
  | some d =>
    rw [parseRow, hd] at h
    obtain rfl : (⟨d, r.amount, r.category, r.description, n⟩ : Expense) = e := by simpa using h
    rfl

theorem loadAux_mem_rowNum (xs : List Row) (n : Nat) (l : List Expense)
    (h : loadAux xs n = some l) (e : Expense) (he : e ∈ l) :
    n ≤ e.row_num ∧ e.row_num < n + xs.length := by
  induction xs generalizing n l with
  | nil => simp only [loadAux, Option.some_inj] at h; subst h; cases he
  | cons r rs ih =>
    simp only [loadAux] at h
    cases hp : parseRow r n with
    | none => rw [hp] at h; simp at h
    | some e0 =>
      rw [hp] at h
      cases hl : loadAux rs (n + 1) with
      | none => rw [hl] at h; simp at h
      | some es =>
        rw [hl] at h
        obtain rfl : e0 :: es = l := by simpa using h
        rcases List.mem_cons.mp he with he0 | hes
        · have h1 := parseRow_rowNum r n e0 hp
          rw [he0]
          simp only [List.length_cons]
          omega
        · have := ih (n + 1) es hl hes
          simp only [List.length_cons]
          omega

theorem loadAux_isSome (xs : List Row) (n : Nat)
    (h : ∀ r ∈ xs, (parseDate r.dateStr).isSome = true) :
    ∃ l, loadAux xs n = some l := by
  induction xs generalizing n with
  | nil => exact ⟨[], rfl⟩
  | cons r rs ih =>
    obtain ⟨l, hl⟩ := ih (n + 1) (fun x hx => h x (List.mem_cons_of_mem _ hx))
    obtain ⟨d, hd⟩ := Option.isSome_iff_exists.mp (h r (List.mem_cons_self r rs))
    exact ⟨⟨d, r.amount, r.category, r.description, n⟩ :: l, by simp [loadAux, parseRow, hd, hl]⟩

/-- Largest sheet position occurring in a loaded snapshot. -/
def maxPosition (l : List Expense) : Nat :=
  (l.map fun e => e.row_num).foldr max 0

theorem maxPosition_cons (e : Expense) (l : List Expense) :
    maxPosition (e :: l) = max e.row_num (maxPosition l) := by
  simp [maxPosition]

theorem loadAux_maxPosition (xs : List Row) (n : Nat) (l : List Expense)
    (h : loadAux xs n = some l) (hne : xs ≠ []) :
    maxPosition l + 1 = n + xs.length := by
  induction xs generalizing n l with
  | nil => cases hne rfl
  | cons r rs ih =>
    simp only [loadAux] at h
    cases hp : parseRow r n with
    | none => rw [hp] at h; simp at h
    | some e0 =>
      rw [hp] at h
      cases hl : loadAux rs (n + 1) with
      | none => rw [hl] at h; simp at h
      | some es =>
        rw [hl] at h
        obtain rfl : e0 :: es = l := by simpa using h
        rw [maxPosition_cons, parseRow_rowNum r n e0 hp]
        rcases rs with _ | ⟨r2, rs2⟩
        · simp only [loadAux, Option.some_inj] at hl
          subst hl
          simp [maxPosition]
        · have := ih (n + 1) es hl (by simp)
          simp only [List.length_cons] at this ⊢
          omega

/-- Python date comparison (`df[date].dt.date >= date_range[0]`):
lexicographic on (year, month, day). -/
def Date.leb (a b : Date) : Bool :=
  Nat.blt a.year b.year ||
    (Nat.beq a.year b.year &&
      (Nat.blt a.month b.month || (Nat.beq a.month b.month && Nat.ble a.day b.day)))

/-- The filter mask of the analysis section: inclusive date range, category
membership, inclusive minimum amount, conjoined. -/
def applyFilters (l : List Expense) (startDate endDate : Date) (cats : List String)
    (minAmount : Rat) : List Expense :=
  l.filter fun e =>
    Date.leb startDate e.date && Date.leb e.date endDate &&
      cats.contains e.category && decide (minAmount ≤ e.amount)

/-- The default of the Min Amount form widget (`value=0.0`). -/
def defaultMinAmount : Rat := 0

/-- `df[amount].sum()`. -/
def totalAmount (l : List Expense) : Rat :=
  (l.map fun e => e.amount).sum

/-- `len(df)`. -/
def transactionCount (l : List Expense) : Nat := l.length

/-- `pandas.Series.mean`: the sum divided by the count, except that the mean
of an empty series is `NaN` (modelled as `none`), not a division fault. -/
def seriesMean (l : List Rat) : Option Rat :=
  if l.isEmpty then none else some (l.sum / (l.length : Rat))

/-- `df[amount].mean()`, the Average Transaction metric. -/
def averageAmount (l : List Expense) : Option Rat :=
  seriesMean (l.map fun e => e.amount)

/-- Sum of the amounts of the records in one category group. -/
def sumFor (l : List Expense) (c : String) : Rat :=
  ((l.filter fun e => e.category == c).map fun e => e.amount).sum

/-- `filtered_df.groupby(category)[amount].sum()`: one entry per distinct
category, keys sorted ascending (pandas groupby sorts group keys).  The
script afterwards reorders the entries by descending value for display
(`sort_values(ascending=False)`); that reordering is a permutation and does
not change the entries themselves, so sums over the values are taken on this
grouped form. -/
def sumByCategory (l : List Expense) : List (String × Rat) :=
  (((l.map fun e => e.category).dedup.mergeSort fun a b => decide (a ≤ b)).map
    fun c => (c, sumFor l c))

/-- `filtered_df[date].unique()`: the distinct dates of the snapshot. -/
def uniqueDates (l : List Expense) : List Date :=
  (l.map fun e => e.date).dedup

/-- The Daily Average statistic:
`filtered_df[amount].sum() / max(len(filtered_df[date].unique()), 1)`. -/
def dailyAverage (l : List Expense) : Rat :=
  totalAmount l / ((max (uniqueDates l).length 1 : Nat) : Rat)

/-- `add_category`: `worksheet.append_row([category])`. -/
def add_category (categories : List String) (label : String) : List String :=
  categories ++ [label]

/-- Outcome tag of one submission of the add-category form. -/
inductive CatAddStatus
  | ignored
  | duplicate
  | added
deriving DecidableEq

/-- The add-category form handler: nothing happens unless the submitted name
is non-empty (`if add_cat_btn and new_category`); a name already in the
loaded category list only produces the duplicate warning; otherwise
`add_category` appends it.  Returns the registry as the next reload sees it,
with the outcome tag. -/
def addCategoryForm (categories : List String) (label : String) :
    List String × CatAddStatus :=
  if label = "" then (categories, .ignored)
  else if label ∈ categories then (categories, .duplicate)
  else (add_category categories label, .added)

theorem totalAmount_cons (e : Expense) (l : List Expense) :
    totalAmount (e :: l) = e.amount + totalAmount l := by
  simp [totalAmount]

theorem totalAmount_filter_split (l : List Expense) (p : Expense → Bool) :
    totalAmount (l.filter p) + totalAmount (l.filter fun e => !(p e)) = totalAmount l := by
  induction l with
  | nil => simp [totalAmount]
  | cons x xs ih =>
    cases hx : p x <;> simp [List.filter_cons, hx, totalAmount_cons] <;> linarith

/-- Grouping partitions the total: summing the per-key group sums over any
duplicate-free key list covering the categories of the snapshot gives the total
amount. -/
theorem sum_sumFor (ks : List String) (l : List Expense) (hnd : ks.Nodup)
    (hsub : ∀ e ∈ l, e.category ∈ ks) :
    (ks.map (sumFor l)).sum = totalAmount l := by
  induction ks generalizing l with
  | nil =>
    cases l with
    | nil => simp [totalAmount]
    | cons x xs => exact absurd (hsub x (List.mem_cons_self x xs)) (List.not_mem_nil _)
  | cons c ks ih =>
    obtain ⟨hc, hnd'⟩ := List.nodup_cons.mp hnd
    have h1 : sumFor l c = totalAmount (l.filter fun e => e.category == c) := rfl
    have h2 : ∀ k ∈ ks, sumFor l k = sumFor (l.filter fun e => !(e.category == c)) k := by
      intro k hk
      have hkc : k ≠ c := fun hkk => hc (hkk ▸ hk)
      have hfil : ((l.filter fun e => !(e.category == c)).filter fun e => e.category == k)
          = l.filter fun e => e.category == k := by
        rw [List.filter_filter]
        apply List.filter_congr
        intro e _
        cases hek : e.category == k
        · simp
        · have h3 : e.category = k := by simpa using hek
          have h4 : (e.category == c) = false := by simp [h3, hkc]
          simp [h4]
      unfold sumFor
      rw [hfil]
    rw [List.map_cons, List.sum_cons, h1, List.map_congr_left h2,
      ih (l.filter fun e => !(e.category == c)) hnd' ?_]
    · linarith [totalAmount_filter_split l (fun e => e.category == c)]
    · intro e he
      obtain ⟨hel, hep⟩ := List.mem_filter.mp he
      have hne : e.category ≠ c := by simpa using hep
      rcases List.mem_cons.mp (hsub e hel) with hc0 | hks
      · exact absurd hc0 hne
      · exact hks

/-- C3: for every filtered snapshot, the sum over all values of
`sumByCategory` (per-category group sums of amount) equals `totalAmount` of
that same filtered snapshot. -/
theorem claim_C3_sumByCategory_total (l : List Expense) (s t : Date)
    (cats : List String) (m : Rat) :
    ((sumByCategory (applyFilters l s t cats m)).map fun x => x.2).sum
      = totalAmount (applyFilters l s t cats m) := by
  have hkeys :
      (((applyFilters l s t cats m).map fun e => e.category).dedup.mergeSort
        fun a b => decide (a ≤ b)).Nodup :=
    (List.mergeSort_perm _ _).symm.nodup (List.nodup_dedup _)
  have hcover : ∀ e ∈ applyFilters l s t cats m,
      e.category ∈ (((applyFilters l s t cats m).map fun x => x.category).dedup.mergeSort
        fun a b => decide (a ≤ b)) := by
    intro e he
    exact (List.mergeSort_perm _ _).mem_iff.mpr
      (List.mem_dedup.mpr (List.mem_map_of_mem _ he))
  have hmap : ((sumByCategory (applyFilters l s t cats m)).map fun x => x.2)
      = (((applyFilters l s t cats m).map fun x => x.category).dedup.mergeSort
          fun a b => decide (a ≤ b)).map (sumFor (applyFilters l s t cats m)) := by
    simp [sumByCategory, List.map_map, Function.comp]
  rw [hmap]
  exact sum_sumFor _ _ hkeys hcover

/-- C2 counterexample: the claim defines the average of an empty filtered set
to be 0, but `df[amount].mean()` on an empty set is pandas `NaN`
(`none` in the model), not 0. -/
theorem claim_C2_counterexample :
    averageAmount (applyFilters [] ⟨2024, 1, 1⟩ ⟨2024, 12, 31⟩ ["Food"] 0) ≠ some 0 := by
  decide

/-- C2 (amended): on an empty set the mean computed by the code is `NaN` (undefined), not 0,
and no division fault is raised (the script moreover only evaluates the
metric on a non-empty frame); on every non-empty set the average equals the
total amount divided by the transaction count. -/
theorem claim_C2_mean_total_count :
    averageAmount [] = none ∧
      ∀ l : List Expense, l ≠ [] →
        averageAmount l = some (totalAmount l / (transactionCount l : Rat)) := by
  refine ⟨rfl, fun l hl => ?_⟩
  have hne : (l.map fun e => e.amount).isEmpty = false := by
    cases l with
    | nil => exact absurd rfl hl
    | cons x xs => rfl
  simp [averageAmount, seriesMean, hne, totalAmount, transactionCount]

/-- C2 witness: the amended statement at a concrete one-record snapshot. -/
theorem claim_C2_witness :
    averageAmount [⟨⟨2024, 1, 1⟩, 10, "Food", "lunch", 2⟩]
      = some (totalAmount [⟨⟨2024, 1, 1⟩, 10, "Food", "lunch", 2⟩]
          / (transactionCount [⟨⟨2024, 1, 1⟩, 10, "Food", "lunch", 2⟩] : Rat)) :=
  claim_C2_mean_total_count.2 [⟨⟨2024, 1, 1⟩, 10, "Food", "lunch", 2⟩] (by decide)

/-- C6 counterexample: the claim appends every label not already present, but
the form handler ignores an empty label (`if add_cat_btn and new_category`),
so the absent label `""` is not appended. -/
theorem claim_C6_counterexample :
    ¬(("" : String) ∈ ["Food"]) ∧
      (addCategoryForm ["Food"] "").1 ≠ add_category ["Food"] "" := by
  decide

/-- C6 (amended): for every label already present (case-sensitive exact
match), the add fails as a duplicate and the registry is unchanged; for every
non-empty label not present, it is appended; an empty label is ignored. -/
theorem claim_C6_addCategory (categories : List String) (label : String) :
    (label ≠ "" → label ∈ categories →
        addCategoryForm categories label = (categories, CatAddStatus.duplicate)) ∧
      (label ≠ "" → label ∉ categories →
        addCategoryForm categories label = (add_category categories label, CatAddStatus.added)) ∧
      (label = "" → addCategoryForm categories label = (categories, CatAddStatus.ignored)) := by
  refine ⟨fun h1 h2 => ?_, fun h1 h2 => ?_, fun h1 => ?_⟩
  · simp [addCategoryForm, h1, h2]
  · simp [addCategoryForm, h1, h2]
  · simp [addCategoryForm, h1]

/-- C6 witness: duplicate rejection (registry unchanged) and appending of a
fresh non-empty label, at concrete inputs. -/
theorem claim_C6_witness :
    addCategoryForm ["Food"] "Food" = (["Food"], CatAddStatus.duplicate) ∧
      addCategoryForm ["Food"] "Tea" = (add_category ["Food"] "Tea", CatAddStatus.added) :=
  ⟨(claim_C6_addCategory ["Food"] "Food").1 (by decide) (by decide),
    (claim_C6_addCategory ["Food"] "Tea").2.1 (by decide) (by decide)⟩

/-- C8: the filtered set contains exactly the records of the snapshot whose
date lies in the inclusive range, whose category is in the allowed set, and
whose amount is at least the threshold; the date bounds and the amount
threshold are inclusive (the comparison is reflexive). -/
theorem claim_C8_filter (l : List Expense) (s t : Date) (cats : List String)
    (m : Rat) (e : Expense) :
    (e ∈ applyFilters l s t cats m ↔
        e ∈ l ∧ Date.leb s e.date = true ∧ Date.leb e.date t = true ∧
          e.category ∈ cats ∧ m ≤ e.amount) ∧
      (∀ d : Date, Date.leb d d = true) := by
  constructor
  · rw [applyFilters, List.mem_filter]
    simp [and_assoc]
  · intro d
    simp [Date.leb]

/-- C9: the Daily Average divisor `max(len(unique dates), 1)` is positive (so
the statistic never divides by zero, even on an empty filtered set), and on
every non-empty filtered snapshot it equals the number of distinct dates, so
the statistic is the total amount divided by that count. -/
theorem claim_C9_dailyAverage (l : List Expense) :
    0 < max (uniqueDates l).length 1 ∧
      (l ≠ [] →
        1 ≤ (uniqueDates l).length ∧
          dailyAverage l = totalAmount l / (((uniqueDates l).length : Nat) : Rat)) := by
  refine ⟨by omega, fun hl => ?_⟩
  have h1 : (uniqueDates l).length ≠ 0 := by
    simp only [ne_eq, List.length_eq_zero, uniqueDates, List.dedup_eq_nil,
      List.map_eq_nil_iff]
    exact hl
  refine ⟨by omega, ?_⟩
  rw [dailyAverage, Nat.max_eq_left (by omega)]

/-- C9 witness: the statistic at a concrete two-record, one-date snapshot. -/
theorem claim_C9_witness :
    1 ≤ (uniqueDates [⟨⟨2024, 1, 1⟩, 10, "Food", "lunch", 2⟩,
        ⟨⟨2024, 1, 1⟩, 5, "Food", "snack", 3⟩]).length ∧
      dailyAverage [⟨⟨2024, 1, 1⟩, 10, "Food", "lunch", 2⟩,
          ⟨⟨2024, 1, 1⟩, 5, "Food", "snack", 3⟩]
        = totalAmount [⟨⟨2024, 1, 1⟩, 10, "Food", "lunch", 2⟩,
            ⟨⟨2024, 1, 1⟩, 5, "Food", "snack", 3⟩]
          / (((uniqueDates [⟨⟨2024, 1, 1⟩, 10, "Food", "lunch", 2⟩,
              ⟨⟨2024, 1, 1⟩, 5, "Food", "snack", 3⟩]).length : Nat) : Rat) :=
  (claim_C9_dailyAverage [⟨⟨2024, 1, 1⟩, 10, "Food", "lunch", 2⟩,
    ⟨⟨2024, 1, 1⟩, 5, "Food", "snack", 3⟩]).2 (by decide)

/-- Loading after an append yields the old snapshot plus the new record at
sheet position `rows.length + 2`. -/
theorem load_expenses_add (rows : List Row) (d : Date) (a : Rat) (c ds : String)
    (hwf : RowsWF rows) (hd : ValidDate d) :
    load_expenses (add_expense rows d a c ds)
      = load_expenses rows ++ [⟨d, a, c, ds, rows.length + 2⟩] := by
  obtain ⟨l, hl⟩ := loadAux_isSome rows 2 hwf
  have happ : loadAux (rows ++ [mkRow d a c ds]) 2
      = some (l ++ [⟨d, a, c, ds, 2 + rows.length⟩]) := by
    rw [loadAux_append, hl]
    simp [loadAux, parseRow_mkRow d a c ds _ hd]
  have hcomm : (2 : Nat) + rows.length = rows.length + 2 := by omega
  rw [hcomm] at happ
  rw [add_expense, load_expenses, happ, load_expenses, hl]
  rfl

/-- C1: for every well-formed ledger state and valid expense, `add_expense`
followed by `load_expenses` yields the old snapshot plus exactly one
additional record carrying the given fields, at position
prior-maximum-position + 1, or 2 if the ledger was empty. -/
theorem claim_C1_add_then_load (rows : List Row) (d : Date) (a : Rat)
    (c ds : String) (hwf : RowsWF rows) (hd : ValidDate d) :
    load_expenses (add_expense rows d a c ds)
        = load_expenses rows ++ [⟨d, a, c, ds, rows.length + 2⟩] ∧
      (load_expenses (add_expense rows d a c ds)).length
        = (load_expenses rows).length + 1 ∧
      (rows ≠ [] → rows.length + 2 = maxPosition (load_expenses rows) + 1) ∧
      (rows = [] → rows.length + 2 = 2) := by
  have hadd := load_expenses_add rows d a c ds hwf hd
  obtain ⟨l, hl⟩ := loadAux_isSome rows 2 hwf
  have hload : load_expenses rows = l := by rw [load_expenses, hl]; rfl
  refine ⟨hadd, by rw [hadd]; simp, fun hne => ?_, fun hnil => by rw [hnil]; rfl⟩
  have hmax := loadAux_maxPosition rows 2 l hl hne
  rw [hload]
  omega

/-- C1 witness: adding to a concrete one-row ledger. -/
theorem claim_C1_witness :
    load_expenses (add_expense [mkRow ⟨2024, 1, 1⟩ 10 "Food" "lunch"]
          ⟨2024, 1, 2⟩ 20 "Transport" "bus")
        = load_expenses [mkRow ⟨2024, 1, 1⟩ 10 "Food" "lunch"]
            ++ [⟨⟨2024, 1, 2⟩, 20, "Transport", "bus", 3⟩] ∧
      (load_expenses (add_expense [mkRow ⟨2024, 1, 1⟩ 10 "Food" "lunch"]
          ⟨2024, 1, 2⟩ 20 "Transport" "bus")).length
        = (load_expenses [mkRow ⟨2024, 1, 1⟩ 10 "Food" "lunch"]).length + 1 ∧
      ([mkRow ⟨2024, 1, 1⟩ 10 "Food" "lunch"] ≠ ([] : List Row) →
        [mkRow ⟨2024, 1, 1⟩ 10 "Food" "lunch"].length + 2
          = maxPosition (load_expenses [mkRow ⟨2024, 1, 1⟩ 10 "Food" "lunch"]) + 1) ∧
      ([mkRow ⟨2024, 1, 1⟩ 10 "Food" "lunch"] = ([] : List Row) →
        [mkRow ⟨2024, 1, 1⟩ 10 "Food" "lunch"].length + 2 = 2) :=
  claim_C1_add_then_load [mkRow ⟨2024, 1, 1⟩ 10 "Food" "lunch"]
    ⟨2024, 1, 2⟩ 20 "Transport" "bus" (by decide) (by decide)

/-- C10: `add_expense` serializes the date as a `YYYY-MM-DD` string (and the
amount as a number), and a subsequent `load_expenses` parses them back: the
record loaded last carries exactly the date and amount given to
`add_expense`. -/
theorem claim_C10_roundtrip (rows : List Row) (d : Date) (a : Rat) (c ds : String)
    (hwf : RowsWF rows) (hd : ValidDate d) :
    parseDate (formatDate d) = some d ∧
      (mkRow d a c ds).dateStr = formatDate d ∧
      (mkRow d a c ds).amount = a ∧
      (load_expenses (add_expense rows d a c ds)).getLast?
        = some ⟨d, a, c, ds, rows.length + 2⟩ := by
  refine ⟨parseDate_formatDate d hd, rfl, rfl, ?_⟩
  rw [load_expenses_add rows d a c ds hwf hd]
  exact List.getLast?_concat _

/-- C10 witness: round-trip of a concrete date and amount through the sheet. -/
theorem claim_C10_witness :
    parseDate (formatDate ⟨2024, 1, 2⟩) = some ⟨2024, 1, 2⟩ ∧
      (mkRow ⟨2024, 1, 2⟩ 20 "Transport" "bus").dateStr = formatDate ⟨2024, 1, 2⟩ ∧
      (mkRow ⟨2024, 1, 2⟩ 20 "Transport" "bus").amount = 20 ∧
      (load_expenses (add_expense [mkRow ⟨2024, 1, 1⟩ 10 "Food" "lunch"]
          ⟨2024, 1, 2⟩ 20 "Transport" "bus")).getLast?
        = some ⟨⟨2024, 1, 2⟩, 20, "Transport", "bus", 3⟩ :=
  claim_C10_roundtrip [mkRow ⟨2024, 1, 1⟩ 10 "Food" "lunch"]
    ⟨2024, 1, 2⟩ 20 "Transport" "bus" (by decide) (by decide)

/-- C4: deleting the record at a held position and reloading removes exactly
one record; every record that previously had a greater position now has its
position decreased by exactly 1, and records with smaller positions are
unchanged. -/
theorem claim_C4_delete_then_load (rows : List Row) (p : Nat)
    (hwf : RowsWF rows) (h2 : 2 ≤ p) (hp : p ≤ rows.length + 1) :
    (load_expenses (delete_expense rows p)).length + 1 = (load_expenses rows).length ∧
      load_expenses (delete_expense rows p)
        = ((load_expenses rows).filter fun e => e.row_num != p).map
            fun e => if p < e.row_num then { e with row_num := e.row_num - 1 } else e := by
  have hk : p - 2 < rows.length := by omega
  have hpp : 2 + (p - 2) = p := by omega
  have hwfT : RowsWF (rows.take (p - 2)) := fun r hr => hwf r (List.take_subset _ _ hr)
  have hwfD : RowsWF (rows.drop (p - 2 + 1)) := fun r hr => hwf r (List.drop_subset _ _ hr)
  obtain ⟨A, hA⟩ := loadAux_isSome (rows.take (p - 2)) 2 hwfT
  obtain ⟨B0, hB0⟩ := loadAux_isSome (rows.drop (p - 2 + 1)) p hwfD
  have hTlen : (rows.take (p - 2)).length = p - 2 := by
    rw [List.length_take]; omega
  obtain ⟨d0, hd0⟩ := Option.isSome_iff_exists.mp (hwf _ (List.getElem_mem hk))
  have hB1 : loadAux (rows.drop (p - 2 + 1)) (p + 1) = some (B0.map bump) := by
    rw [loadAux_shift, hB0]; rfl
  have hsplit : rows.take (p - 2) ++ rows[p - 2] :: rows.drop (p - 2 + 1) = rows := by
    rw [← List.drop_eq_getElem_cons hk, List.take_append_drop]
  have hbefore : loadAux rows 2
      = some (A ++ (⟨d0, (rows[p - 2]).amount, (rows[p - 2]).category,
          (rows[p - 2]).description, p⟩ : Expense) :: B0.map bump) := by
    conv_lhs => rw [← hsplit]
    rw [loadAux_append, hA, hTlen, hpp]
    simp [loadAux, parseRow, hd0, hB1]
  have herase : delete_expense rows p = rows.take (p - 2) ++ rows.drop (p - 2 + 1) := by
    rw [delete_expense, List.eraseIdx_eq_take_drop_succ]
  have hafter : loadAux (delete_expense rows p) 2 = some (A ++ B0) := by
    rw [herase, loadAux_append, hA, hTlen, hpp, hB0]
    rfl
  have hAbound : ∀ e ∈ A, e.row_num < p := by
    intro e he
    have := loadAux_mem_rowNum _ 2 A hA e he
    omega
  have hB0bound : ∀ e ∈ B0, p ≤ e.row_num := by
    intro e he
    exact (loadAux_mem_rowNum _ p B0 hB0 e he).1
  have hloadb : load_expenses rows
      = A ++ (⟨d0, (rows[p - 2]).amount, (rows[p - 2]).category,
          (rows[p - 2]).description, p⟩ : Expense) :: B0.map bump := by
    rw [load_expenses, hbefore]; rfl
  have hloada : load_expenses (delete_expense rows p) = A ++ B0 := by
    rw [load_expenses, hafter]; rfl
  constructor
  · rw [hloada, hloadb]
    simp
    omega
  · rw [hloada, hloadb]
    rw [List.filter_append, List.filter_cons]
    have hmid : ((⟨d0, (rows[p - 2]).amount, (rows[p - 2]).category,
        (rows[p - 2]).description, p⟩ : Expense).row_num != p) = false := by
      simp
    rw [hmid]
    simp only [Bool.false_eq_true, if_false]
    have hfA : A.filter (fun e => e.row_num != p) = A :=
      List.filter_eq_self.mpr fun e he => by
        have := hAbound e he
        simp
        omega
    have hfB : (B0.map bump).filter (fun e => e.row_num != p) = B0.map bump :=
      List.filter_eq_self.mpr fun e he => by
        obtain ⟨e0, he0, rfl⟩ := List.mem_map.mp he
        have := hB0bound e0 he0
        simp [bump]
        omega
    rw [hfA, hfB, List.map_append]
    have hmA : A.map (fun e => if p < e.row_num then
        { e with row_num := e.row_num - 1 } else e) = A := by
      have hpt : ∀ e ∈ A, (if p < e.row_num then
          ({ e with row_num := e.row_num - 1 } : Expense) else e) = e := by
        intro e he
        have hb := hAbound e he
        rw [if_neg (by omega)]
      exact (List.map_congr_left hpt).trans (List.map_id A)
    have hmB : (B0.map bump).map (fun e => if p < e.row_num then
        { e with row_num := e.row_num - 1 } else e) = B0 := by
      rw [List.map_map]
      have hpt : ∀ e ∈ B0, ((fun x => if p < x.row_num then
          ({ x with row_num := x.row_num - 1 } : Expense) else x) ∘ bump) e = e := by
        intro e he
        have hb := hB0bound e he
        show (if p < (bump e).row_num then
          ({ bump e with row_num := (bump e).row_num - 1 } : Expense) else bump e) = e
        rw [if_pos (by simp only [bump]; omega)]
        cases e
        simp [bump]
      exact (List.map_congr_left hpt).trans (List.map_id B0)
    rw [hmA, hmB]

/-- C4 witness: deleting the middle record of a concrete three-row ledger. -/
theorem claim_C4_witness :
    (load_expenses (delete_expense [mkRow ⟨2024, 1, 1⟩ 10 "Food" "lunch",
          mkRow ⟨2024, 1, 2⟩ 20 "Transport" "bus",
          mkRow ⟨2024, 1, 3⟩ 5 "Food" "snack"] 3)).length + 1
        = (load_expenses [mkRow ⟨2024, 1, 1⟩ 10 "Food" "lunch",
            mkRow ⟨2024, 1, 2⟩ 20 "Transport" "bus",
            mkRow ⟨2024, 1, 3⟩ 5 "Food" "snack"]).length ∧
      load_expenses (delete_expense [mkRow ⟨2024, 1, 1⟩ 10 "Food" "lunch",
          mkRow ⟨2024, 1, 2⟩ 20 "Transport" "bus",
          mkRow ⟨2024, 1, 3⟩ 5 "Food" "snack"] 3)
        = ((load_expenses [mkRow ⟨2024, 1, 1⟩ 10 "Food" "lunch",
            mkRow ⟨2024, 1, 2⟩ 20 "Transport" "bus",
            mkRow ⟨2024, 1, 3⟩ 5 "Food" "snack"]).filter fun e => e.row_num != 3).map
              fun e => if 3 < e.row_num then { e with row_num := e.row_num - 1 } else e :=
  claim_C4_delete_then_load [mkRow ⟨2024, 1, 1⟩ 10 "Food" "lunch",
    mkRow ⟨2024, 1, 2⟩ 20 "Transport" "bus",
    mkRow ⟨2024, 1, 3⟩ 5 "Food" "snack"] 3 (by decide) (by decide) (by decide)

/-- C5: overwriting the record at a held position with new field values and
reloading shows the new values at that position and leaves the field values
at every other position unchanged. -/
theorem claim_C5_update_then_load (rows : List Row) (p : Nat) (d : Date) (a : Rat)
    (c ds : String) (hwf : RowsWF rows) (hd : ValidDate d) (h2 : 2 ≤ p)
    (hp : p ≤ rows.length + 1) :
    load_expenses (update_expense rows p d a c ds)
      = (load_expenses rows).map fun e =>
          if e.row_num = p then ⟨d, a, c, ds, p⟩ else e := by
  have hk : p - 2 < rows.length := by omega
  have hpp : 2 + (p - 2) = p := by omega
  have hwfT : RowsWF (rows.take (p - 2)) := fun r hr => hwf r (List.take_subset _ _ hr)
  have hwfD : RowsWF (rows.drop (p - 2 + 1)) := fun r hr => hwf r (List.drop_subset _ _ hr)
  obtain ⟨A, hA⟩ := loadAux_isSome (rows.take (p - 2)) 2 hwfT
  obtain ⟨B0, hB0⟩ := loadAux_isSome (rows.drop (p - 2 + 1)) p hwfD
  have hTlen : (rows.take (p - 2)).length = p - 2 := by
    rw [List.length_take]; omega
  obtain ⟨d0, hd0⟩ := Option.isSome_iff_exists.mp (hwf _ (List.getElem_mem hk))
  have hB1 : loadAux (rows.drop (p - 2 + 1)) (p + 1) = some (B0.map bump) := by
    rw [loadAux_shift, hB0]; rfl
  have hsplit : rows.take (p - 2) ++ rows[p - 2] :: rows.drop (p - 2 + 1) = rows := by
    rw [← List.drop_eq_getElem_cons hk, List.take_append_drop]
  have hbefore : loadAux rows 2
      = some (A ++ (⟨d0, (rows[p - 2]).amount, (rows[p - 2]).category,
          (rows[p - 2]).description, p⟩ : Expense) :: B0.map bump) := by
    conv_lhs => rw [← hsplit]
    rw [loadAux_append, hA, hTlen, hpp]
    simp [loadAux, parseRow, hd0, hB1]
  have hset : update_expense rows p d a c ds
      = rows.take (p - 2) ++ mkRow d a c ds :: rows.drop (p - 2 + 1) := by
    rw [update_expense, List.set_eq_take_append_cons_drop, if_pos hk]
  have hafter : loadAux (update_expense rows p d a c ds) 2
      = some (A ++ (⟨d, a, c, ds, p⟩ : Expense) :: B0.map bump) := by
    rw [hset, loadAux_append, hA, hTlen, hpp]
    simp [loadAux, parseRow_mkRow d a c ds _ hd, hB1]
  have hAbound : ∀ e ∈ A, e.row_num < p := by
    intro e he
    have := loadAux_mem_rowNum _ 2 A hA e he
    omega
  have hB0bound : ∀ e ∈ B0, p ≤ e.row_num := by
    intro e he
    exact (loadAux_mem_rowNum _ p B0 hB0 e he).1
  have hloadb : load_expenses rows
      = A ++ (⟨d0, (rows[p - 2]).amount, (rows[p - 2]).category,
          (rows[p - 2]).description, p⟩ : Expense) :: B0.map bump := by
    rw [load_expenses, hbefore]; rfl
  have hloada : load_expenses (update_expense rows p d a c ds)
      = A ++ (⟨d, a, c, ds, p⟩ : Expense) :: B0.map bump := by
    rw [load_expenses, hafter]; rfl
  rw [hloada, hloadb, List.map_append, List.map_cons]
  have hmA : A.map (fun e => if e.row_num = p then
      (⟨d, a, c, ds, p⟩ : Expense) else e) = A := by
    have hpt : ∀ e ∈ A, (if e.row_num = p then
        (⟨d, a, c, ds, p⟩ : Expense) else e) = e := by
      intro e he
      have hb := hAbound e he
      rw [if_neg (by omega)]
    exact (List.map_congr_left hpt).trans (List.map_id A)
  have hmB : (B0.map bump).map (fun e => if e.row_num = p then
      (⟨d, a, c, ds, p⟩ : Expense) else e) = B0.map bump := by
    rw [List.map_map]
    have hpt : ∀ e ∈ B0, ((fun x => if x.row_num = p then
        (⟨d, a, c, ds, p⟩ : Expense) else x) ∘ bump) e = bump e := by
      intro e he
      have hb := hB0bound e he
      show (if (bump e).row_num = p then (⟨d, a, c, ds, p⟩ : Expense) else bump e) = bump e
      rw [if_neg (by simp only [bump]; omega)]
    exact (List.map_congr_left hpt).trans rfl
  rw [hmA, hmB]
  simp

/-- C5 witness: overwriting the middle record of a concrete three-row
ledger. -/
theorem claim_C5_witness :
    load_expenses (update_expense [mkRow ⟨2024, 1, 1⟩ 10 "Food" "lunch",
        mkRow ⟨2024, 1, 2⟩ 20 "Transport" "bus",
        mkRow ⟨2024, 1, 3⟩ 5 "Food" "snack"] 3 ⟨2024, 2, 7⟩ 8 "Groceries" "milk")
      = (load_expenses [mkRow ⟨2024, 1, 1⟩ 10 "Food" "lunch",
          mkRow ⟨2024, 1, 2⟩ 20 "Transport" "bus",
          mkRow ⟨2024, 1, 3⟩ 5 "Food" "snack"]).map fun e =>
            if e.row_num = 3 then ⟨⟨2024, 2, 7⟩, 8, "Groceries", "milk", 3⟩ else e :=
  claim_C5_update_then_load [mkRow ⟨2024, 1, 1⟩ 10 "Food" "lunch",
    mkRow ⟨2024, 1, 2⟩ 20 "Transport" "bus",
    mkRow ⟨2024, 1, 3⟩ 5 "Food" "snack"] 3 ⟨2024, 2, 7⟩ 8 "Groceries" "milk"
    (by decide) (by decide) (by decide) (by decide)

end ExpenseApp
